import Mathlib

/-!
Verification of the worksheet serializer of excel-rs
(`crates/excel-rs-xlsx/src/typed_sheet.rs` and
`crates/excel-rs-xlsx/src/sheet.rs`).

Bytes are modelled as `Nat` values, byte strings as `List Nat`.  Machine
arithmetic follows release semantics: integer casts and overflowing
additions wrap, `usize` subtraction wraps modulo `2 ^ 64`, and an
out-of-bounds slice index (a Rust panic) is modelled by `none`.
-/

/-- ASCII byte values of a string literal. -/
def ascii (s : String) : List Nat := s.toList.map Char.toNat

/-- Replacement table inside `escape_in_place` (`typed_sheet.rs` 176-198,
identical in `sheet.rs` 128-150): the five XML-reserved bytes and their
entity replacements; every other byte produces no substitution. -/
def escape_repl (b : Nat) : Option (List Nat) :=
  if b = 60 then some (ascii "&lt;")
  else if b = 62 then some (ascii "&gt;")
  else if b = 39 then some (ascii "&apos;")
  else if b = 38 then some (ascii "&amp;")
  else if b = 34 then some (ascii "&quot;")
  else none

/-- Scanning loop of `escape_in_place`: walk the bytes from index `x`,
collecting the replacement slices and their byte offsets (the two
`VecDeque`s of the source, in push order). -/
def escape_aux : Nat → List Nat → List (List Nat) × List Nat
  | _, [] => ([], [])
  | x, b :: rest =>
    match escape_repl b with
    | some c => (c :: (escape_aux (x + 1) rest).1, x :: (escape_aux (x + 1) rest).2)
    | none => escape_aux (x + 1) rest

/-- `escape_in_place` (`typed_sheet.rs` 171-202 / `sheet.rs` 123-154). -/
def escape_in_place (bs : List Nat) : List (List Nat) × List Nat :=
  escape_aux 0 bs

/-- Splicing loop of `write_row` (`typed_sheet.rs` 103-111 / 128-136,
`sheet.rs` 102-110): for each recorded offset, copy
`datum[current_pos..char_pos]`, then the popped replacement, finally the
tail `datum[current_pos..]`.  A Rust slice with crossed or out-of-range
bounds panics, and popping from an empty deque panics: both are `none`. -/
def splice_aux (datum : List Nat) : Nat → List (List Nat) → List Nat → Option (List Nat)
  | cur, _, [] => if cur ≤ datum.length then some (datum.drop cur) else none
  | _, [], _ :: _ => none
  | cur, c :: cs, p :: ps =>
    if cur ≤ p ∧ p ≤ datum.length then
      (splice_aux datum (p + 1) cs ps).map
        (fun t => (datum.drop cur).take (p - cur) ++ c ++ t)
    else none

/-- Escaped cell text exactly as `write_row` assembles it from the output
of `escape_in_place`. -/
def apply_escapes (datum : List Nat) : Option (List Nat) :=
  splice_aux datum 0 (escape_in_place datum).1 (escape_in_place datum).2

/-- Two's-complement reinterpretation of the low 16 bits of a `usize`:
the `col as i16` cast in `col_to_letter`. -/
def i16_of_nat (n : Nat) : Int :=
  if n % 65536 < 32768 then ((n % 65536 : Nat) : Int)
  else ((n % 65536 : Nat) : Int) - 65536

/-- Letter-building loop of `col_to_letter` (`typed_sheet.rs` 260-266 /
`sheet.rs` 227-233): push `b'A' + (col % 26) as u8` (truncated `i16`
remainder, wrapping byte arithmetic), then `col = col / 26 - 1` in
truncated `i16` division, stopping once `col` is negative; digits are
produced least significant first.  Starting from any `i16` value the loop
body runs at most four times, so `fuel = 16` is never exhausted. -/
def col_digits_aux : Nat → Int → List Nat
  | 0, _ => []
  | fuel + 1, col =>
    let d := ((65 + Int.tmod col 26 % 256) % 256).toNat
    let next := Int.tdiv col 26 - 1
    if next < 0 then [d] else d :: col_digits_aux fuel next

/-- Column-letter computation of `col_to_letter` (`typed_sheet.rs` 255-273
/ `sheet.rs` 221-240): run the loop on the `i16` cast of `col`, then
reverse the digits. -/
def col_letters (col : Nat) : List Nat :=
  (col_digits_aux 16 (i16_of_nat col)).reverse

/-- Encoding algorithm stated by the specification (claim C3): letter
`'A' + n % 26`, then `n := n / 26 - 1`, repeated while `n` stays
non-negative, digits least significant first; over `Nat` the stop test
`n / 26 - 1 < 0` is `n < 26`.  `fuel` only bounds the recursion and is
irrelevant whenever `n < 26 ^ fuel`. -/
def col_digits_spec_aux : Nat → Nat → List Nat
  | 0, _ => []
  | fuel + 1, n =>
    if n < 26 then [65 + n % 26]
    else (65 + n % 26) :: col_digits_spec_aux fuel (n / 26 - 1)

/-- Specification-side column-letter encoding (claim C3). -/
def col_letters_spec (n : Nat) : List Nat :=
  (col_digits_spec_aux (n + 1) n).reverse

/-- Decoder of the column-letter form, used to state the round-trip law of
claim C3: letters are base-26 digits valued `'A'..'Z' ↦ 1..26`, most
significant first; subtract one to return to a zero-based index. -/
def letters_to_index (ls : List Nat) : Nat :=
  ls.foldl (fun acc d => acc * 26 + (d - 64)) 0 - 1

/-- Value of a least-significant-first letter list, used to prove the
round-trip law. -/
def letters_val_lsb : List Nat → Nat
  | [] => 0
  | d :: ds => (d - 64) + 26 * letters_val_lsb ds

/-- Wrapping decrement of a 64-bit `usize` (`char_pos -= 1`): the literals
are `2 ^ 64 - 1` and `2 ^ 64`. -/
def usize_sub1 (p : Nat) : Nat :=
  (p + 18446744073709551615) % 18446744073709551616

/-- Digit loop of `num_to_bytes` (`typed_sheet.rs` 225-230 / `sheet.rs`
191-196): write the decimal digits of `row` into the nine-byte buffer at
positions `char_pos, char_pos - 1, …`; an index outside the buffer is a
panic (`none`).  The write pointer starts at 8 and wraps to `2 ^ 64 - 1`
after position 0, so a tenth write attempt always fails the bounds check:
the loop body never runs more than nine times and `fuel = 10` is never
exhausted. -/
def num_to_bytes_aux : Nat → Nat → List Nat → Nat → Nat → Option (List Nat × Nat)
  | _, 0, arr, _, digits => some (arr, digits)
  | 0, _ + 1, _, _, _ => none
  | fuel + 1, row + 1, arr, charPos, digits =>
    if charPos < arr.length then
      num_to_bytes_aux fuel ((row + 1) / 10) (arr.set charPos (48 + (row + 1) % 10))
        (usize_sub1 charPos) (digits + 1)
    else none

/-- `TypedSheet::num_to_bytes` (`typed_sheet.rs` 220-233): no special case
for zero, so `n = 0` returns the untouched buffer with digit count 0. -/
def num_to_bytes (n : Nat) : Option (List Nat × Nat) :=
  num_to_bytes_aux 10 n (List.replicate 9 0) 8 0

/-- `Sheet::num_to_bytes` (`sheet.rs` 179-199): identical loop plus an
early return of `"0"` with one digit when `n = 0`. -/
def sheet_num_to_bytes (n : Nat) : Option (List Nat × Nat) :=
  if n = 0 then some ((List.replicate 9 0).set 8 48, 1)
  else num_to_bytes_aux 10 n (List.replicate 9 0) 8 0

/-- Decimal digits of `n` in ASCII, least significant first; `fuel ≥ n`
always suffices. -/
def dec_lsb_aux : Nat → Nat → List Nat
  | _, 0 => []
  | 0, _ => []
  | fuel + 1, m + 1 => (48 + (m + 1) % 10) :: dec_lsb_aux fuel ((m + 1) / 10)

/-- Standard decimal ASCII representation of `n` with no leading zeros
(claim C5's reference encoding); empty for `n = 0`, which the worksheet
logic never emits. -/
def dec_repr (n : Nat) : List Nat := (dec_lsb_aux n n).reverse

/-- Is `b` an ASCII digit `0`-`9`. -/
def is_digit (b : Nat) : Bool := decide (48 ≤ b ∧ b ≤ 57)

/-- Numeric value of a list of ASCII digit bytes. -/
def digits_val (ds : List Nat) : Nat :=
  ds.foldl (fun a d => a * 10 + (d - 48)) 0

/-- Model of Rust `str::parse::<i64>` acceptance: an optional `+`/`-`
sign, then one or more ASCII digits and nothing else, with the magnitude
inside the `i64` range. -/
def parse_i64_ok (bs : List Nat) : Bool :=
  let core : Bool × List Nat :=
    match bs with
    | 43 :: r => (false, r)
    | 45 :: r => (true, r)
    | r => (false, r)
  !core.2.isEmpty && core.2.all is_digit &&
    (if core.1 then decide (digits_val core.2 ≤ 9223372036854775808)
     else decide (digits_val core.2 ≤ 9223372036854775807))

/-- Drop one optional leading `+`/`-` sign. -/
def strip_sign (bs : List Nat) : List Nat :=
  match bs with
  | 43 :: r => r
  | 45 :: r => r
  | r => r

/-- ASCII lower-casing of one byte. -/
def lower_byte (b : Nat) : Nat := if 65 ≤ b ∧ b ≤ 90 then b + 32 else b

/-- Split a byte string at the first `e`/`E`, returning the mantissa part
and, when present, the exponent part. -/
def split_exp : List Nat → List Nat × Option (List Nat)
  | [] => ([], none)
  | b :: r =>
    if b = 101 ∨ b = 69 then ([], some r)
    else ((b :: (split_exp r).1), (split_exp r).2)

/-- Split a byte string at the first `.`, returning the integer part and,
when present, the fractional part. -/
def split_dot : List Nat → List Nat × Option (List Nat)
  | [] => ([], none)
  | b :: r =>
    if b = 46 then ([], some r)
    else ((b :: (split_dot r).1), (split_dot r).2)

/-- Exponent clause of the Rust float grammar: optional sign then one or
more digits. -/
def exp_ok (bs : List Nat) : Bool :=
  !(strip_sign bs).isEmpty && (strip_sign bs).all is_digit

/-- Decimal-number clause of the Rust float grammar: digits, an optional
dot with optional further digits (at least one digit overall, and a
leading dot requires fractional digits), then an optional exponent. -/
def number_ok (bs : List Nat) : Bool :=
  let mant := (split_exp bs).1
  let mok :=
    match split_dot mant with
    | (intp, none) => !intp.isEmpty && intp.all is_digit
    | (intp, some frac) =>
      intp.all is_digit && frac.all is_digit && (!intp.isEmpty || !frac.isEmpty)
  mok && (match (split_exp bs).2 with
    | none => true
    | some e => exp_ok e)

/-- Model of Rust `str::parse::<f64>` acceptance (the std `FromStr`
grammar): optional sign, then `inf`, `infinity` or `nan` case
insensitively, or a decimal number; overflow is never an error. -/
def parse_f64_ok (bs : List Nat) : Bool :=
  decide ((strip_sign bs).map lower_byte = ascii "inf") ||
  decide ((strip_sign bs).map lower_byte = ascii "infinity") ||
  decide ((strip_sign bs).map lower_byte = ascii "nan") ||
  number_ok (strip_sign bs)

/-- Field set collected by chrono's parser (`chrono::format::Parsed`),
restricted to the fields the three format strings of `infer_row_types`
can ever mention.  `NaiveDateTime::parse_from_str` needs the time fields
as well, and no item of `%Y-%m-%d`, `%m/%d/%Y` or `%d/%m/%Y` ever sets
them. -/
structure ChronoParsed where
  year : Option Nat := none
  month : Option Nat := none
  day : Option Nat := none
  hour : Option Nat := none
  minute : Option Nat := none
  second : Option Nat := none
deriving DecidableEq

/-- Items of the three chrono format strings used by `infer_row_types`:
numeric year, month, day, and literal separator bytes. -/
inductive FmtItem where
  | numYear
  | numMonth
  | numDay
  | lit (b : Nat)
deriving DecidableEq

/-- Greedily take up to `w` leading ASCII digit bytes. -/
def leading_digits : Nat → List Nat → List Nat × List Nat
  | 0, bs => ([], bs)
  | _ + 1, [] => ([], [])
  | w + 1, b :: r =>
    if is_digit b then ((b :: (leading_digits w r).1), (leading_digits w r).2)
    else ([], b :: r)

/-- Chrono numeric-item parsing: at least one digit, at most `w`. -/
def parse_num (w : Nat) (bs : List Nat) : Option (Nat × List Nat) :=
  if (leading_digits w bs).1.isEmpty then none
  else some (digits_val (leading_digits w bs).1, (leading_digits w bs).2)

/-- Run the format items over the input (chrono `parse`): numeric items
consume digits into the corresponding field, literal items consume one
matching byte, and trailing input is an error. -/
def parse_items : List FmtItem → List Nat → ChronoParsed → Option ChronoParsed
  | [], [], p => some p
  | [], _ :: _, _ => none
  | FmtItem.numYear :: items, bs, p =>
    match parse_num 4 bs with
    | none => none
    | some (v, rest) => parse_items items rest { p with year := some v }
  | FmtItem.numMonth :: items, bs, p =>
    match parse_num 2 bs with
    | none => none
    | some (v, rest) => parse_items items rest { p with month := some v }
  | FmtItem.numDay :: items, bs, p =>
    match parse_num 2 bs with
    | none => none
    | some (v, rest) => parse_items items rest { p with day := some v }
  | FmtItem.lit b :: items, bs, p =>
    match bs with
    | c :: rest => if c = b then parse_items items rest p else none
    | [] => none

/-- Model of `chrono::NaiveDateTime::parse_from_str`: parse the fields,
then convert them to a date and a time.  The conversion demands a
plausible calendar date AND the hour and minute fields (chrono fails with
`NotEnough` otherwise); the date-only formats of `infer_row_types` never
set any time field, so the conversion never succeeds.  (The calendar
check is approximate — month 1-12, day 1-31 — which cannot affect any
outcome because the time check already fails.) -/
def naive_datetime_parse_ok (fmt : List FmtItem) (bs : List Nat) : Bool :=
  match parse_items fmt bs {} with
  | none => false
  | some p =>
    (match p.year, p.month, p.day with
     | some _, some mo, some d =>
       decide (1 ≤ mo) && decide (mo ≤ 12) && decide (1 ≤ d) && decide (d ≤ 31)
     | _, _, _ => false) &&
    p.hour.isSome && p.minute.isSome

/-- Format `"%Y-%m-%d"`. -/
def fmt_ymd : List FmtItem :=
  [FmtItem.numYear, FmtItem.lit 45, FmtItem.numMonth, FmtItem.lit 45, FmtItem.numDay]

/-- Format `"%m/%d/%Y"`. -/
def fmt_mdy : List FmtItem :=
  [FmtItem.numMonth, FmtItem.lit 47, FmtItem.numDay, FmtItem.lit 47, FmtItem.numYear]

/-- Format `"%d/%m/%Y"`. -/
def fmt_dmy : List FmtItem :=
  [FmtItem.numDay, FmtItem.lit 47, FmtItem.numMonth, FmtItem.lit 47, FmtItem.numYear]

/-- `TypedSheet::infer_row_types` (`typed_sheet.rs` 150-169).  The
`String::from_utf8_lossy` conversion is the identity on ASCII fields; a
replacement character produced for an invalid byte would fail every parse
just as the raw byte does. -/
def infer_row_types (data : List (List Nat)) : List (List Nat) :=
  data.map fun field =>
    if parse_i64_ok field then ascii "n"
    else if parse_f64_ok field then ascii "n"
    else if naive_datetime_parse_ok fmt_ymd field then ascii "d"
    else if naive_datetime_parse_ok fmt_mdy field then ascii "d"
    else if naive_datetime_parse_ok fmt_dmy field then ascii "d"
    else ascii "str"

/-- Mutable fields shared by `TypedSheet` (`typed_sheet.rs` 14-22) and
`Sheet` (`sheet.rs` 9-19): the column-letter cache, the `u32` row
counter, and the three flags. -/
structure SheetState where
  col_num_to_letter : List (List Nat)
  current_row_num : Nat
  has_auto_filter : Bool
  sheet_data_started : Bool
  freeze_top_row : Bool
deriving DecidableEq

/-- Field values set by `TypedSheet::new` / `Sheet::new`. -/
def new_state : SheetState :=
  { col_num_to_letter := [], current_row_num := 0, has_auto_filter := false,
    sheet_data_started := false, freeze_top_row := false }

/-- Bytes written by `new` (`typed_sheet.rs` 35-37 / `sheet.rs` 32-34);
the Rust `\` line continuations splice the pieces with the shown spaces. -/
def preamble_bytes : List Nat :=
  ascii "<?xml version=\"1.0\" encoding=\"UTF-8\" standalone=\"yes\"?>\n<worksheet xmlns=\"http://schemas.openxmlformats.org/spreadsheetml/2006/main\" xmlns:r=\"http://schemas.openxmlformats.org/officeDocument/2006/relationships\">\n"

/-- Bytes written by `write_sheet_views` (`typed_sheet.rs` 63-69 /
`sheet.rs` 58-64). -/
def sheet_views_bytes : List Nat :=
  ascii "<sheetViews>\n<sheetView tabSelected=\"1\" workbookViewId=\"0\" zoomScale=\"100\">\n<pane ySplit=\"1\" xSplit=\"0\" topLeftCell=\"A2\" activePane=\"bottomLeft\" state=\"frozen\" />\n<selection pane=\"topLeft\" />\n<selection pane=\"bottomLeft\" activeCell=\"A2\" sqref=\"A2\" />\n</sheetView>\n</sheetViews>\n"

/-- `col_to_letter` with its cache (`typed_sheet.rs` 255-273 / `sheet.rs`
221-240): when the cache is shorter than `col + 1`, the freshly encoded
letters are pushed at the END of the cache; the cache is then indexed at
`col`, and an out-of-range index is a panic (`none`). -/
def col_to_letter (cache : List (List Nat)) (col : Nat) :
    Option (List Nat × List (List Nat)) :=
  let cache1 := if cache.length < col + 1 then cache ++ [col_letters col] else cache
  match cache1[col]? with
  | some l => some (l, cache1)
  | none => none

/-- `ref_id` (`typed_sheet.rs` 235-253 / `sheet.rs` 201-219): the column
letters followed by the `digits` decimal bytes of the row number, copied
into a 12-byte buffer; writing past that buffer is a panic (`none`).  The
row bytes occupy positions `9 - digits` to `8` of the row buffer (the
source's wrapped index `(8 - digits) + i + 1`). -/
def ref_id (cache : List (List Nat)) (col : Nat) (rowArr : List Nat) (digits : Nat) :
    Option (List Nat × List (List Nat)) :=
  match col_to_letter cache col with
  | none => none
  | some (letters, cache1) =>
    if letters.length + digits ≤ 12 then
      some (letters ++ rowArr.drop (9 - digits), cache1)
    else none

/-- First-row cell loop of `TypedSheet::write_row` (`typed_sheet.rs`
96-115): every cell is emitted with the literal `t="str"`. -/
def write_cells_hdr (rowArr : List Nat) (digits : Nat) :
    List (List Nat) → List (List Nat) → Nat → Option (List Nat × List (List Nat))
  | cache, [], _ => some ([], cache)
  | cache, datum :: rest, col =>
    match ref_id cache col rowArr digits with
    | none => none
    | some (r, cache1) =>
      match apply_escapes datum with
      | none => none
      | some esc =>
        match write_cells_hdr rowArr digits cache1 rest (col + 1) with
        | none => none
        | some (out, cache2) =>
          some (ascii "<c r=\"" ++ r ++ ascii "\" t=\"str\"><v>" ++ esc ++
            ascii "</v></c>" ++ out, cache2)

/-- Later-row cell loop of `TypedSheet::write_row` (`typed_sheet.rs`
117-140): the tag is `types.get(col)` with fallback `"s"`. -/
def write_cells_typed (types : List (List Nat)) (rowArr : List Nat) (digits : Nat) :
    List (List Nat) → List (List Nat) → Nat → Option (List Nat × List (List Nat))
  | cache, [], _ => some ([], cache)
  | cache, datum :: rest, col =>
    match ref_id cache col rowArr digits with
    | none => none
    | some (r, cache1) =>
      match apply_escapes datum with
      | none => none
      | some esc =>
        match write_cells_typed types rowArr digits cache1 rest (col + 1) with
        | none => none
        | some (out, cache2) =>
          some (ascii "<c r=\"" ++ r ++ ascii "\" t=\"" ++ types.getD col (ascii "s") ++
            ascii "\"><v>" ++ esc ++ ascii "</v></c>" ++ out, cache2)

/-- Cell loop of `Sheet::write_row` (`sheet.rs` 95-114): every cell is
emitted with the literal `t="str"`, byte for byte the first-row loop of
the typed writer. -/
def write_cells_sheet (rowArr : List Nat) (digits : Nat) :
    List (List Nat) → List (List Nat) → Nat → Option (List Nat × List (List Nat))
  | cache, [], _ => some ([], cache)
  | cache, datum :: rest, col =>
    match ref_id cache col rowArr digits with
    | none => none
    | some (r, cache1) =>
      match apply_escapes datum with
      | none => none
      | some esc =>
        match write_cells_sheet rowArr digits cache1 rest (col + 1) with
        | none => none
        | some (out, cache2) =>
          some (ascii "<c r=\"" ++ r ++ ascii "\" t=\"str\"><v>" ++ esc ++
            ascii "</v></c>" ++ out, cache2)

/-- Cell emission as described by claim C2: one loop whose type tag is
produced by a per-column selector. -/
def write_cells_with (tagOf : Nat → List Nat) (rowArr : List Nat) (digits : Nat) :
    List (List Nat) → List (List Nat) → Nat → Option (List Nat × List (List Nat))
  | cache, [], _ => some ([], cache)
  | cache, datum :: rest, col =>
    match ref_id cache col rowArr digits with
    | none => none
    | some (r, cache1) =>
      match apply_escapes datum with
      | none => none
      | some esc =>
        match write_cells_with tagOf rowArr digits cache1 rest (col + 1) with
        | none => none
        | some (out, cache2) =>
          some (ascii "<c r=\"" ++ r ++ ascii "\" t=\"" ++ tagOf col ++
            ascii "\"><v>" ++ esc ++ ascii "</v></c>" ++ out, cache2)

/-- `TypedSheet::write_row` (`typed_sheet.rs` 83-148).  The `u32` row
counter wraps modulo `2 ^ 32 = 4294967296`. -/
def write_row (s : SheetState) (data : List (List Nat)) (types : List (List Nat)) :
    Option (SheetState × List Nat) :=
  let rowNum := (s.current_row_num + 1) % 4294967296
  match num_to_bytes rowNum with
  | none => none
  | some (rowArr, digits) =>
    match (if rowNum = 1 then write_cells_hdr rowArr digits s.col_num_to_letter data 0
           else write_cells_typed types rowArr digits s.col_num_to_letter data 0) with
    | none => none
    | some (cells, cache1) =>
      some ({ s with col_num_to_letter := cache1, current_row_num := rowNum },
        ascii "<row r=\"" ++ rowArr.drop (9 - digits) ++ ascii "\">" ++ cells ++
          ascii "</row>")

/-- `Sheet::write_row` (`sheet.rs` 82-121): one loop, every cell tagged
`t="str"`. -/
def sheet_write_row (s : SheetState) (data : List (List Nat)) :
    Option (SheetState × List Nat) :=
  let rowNum := (s.current_row_num + 1) % 4294967296
  match sheet_num_to_bytes rowNum with
  | none => none
  | some (rowArr, digits) =>
    match write_cells_sheet rowArr digits s.col_num_to_letter data 0 with
    | none => none
    | some (cells, cache1) =>
      some ({ s with col_num_to_letter := cache1, current_row_num := rowNum },
        ascii "<row r=\"" ++ rowArr.drop (9 - digits) ++ ascii "\">" ++ cells ++
          ascii "</row>")

/-- `TypedSheet::write_row` as described by claim C2: a single loop whose
tag selector is `"str"` on the first row (row counter 1) regardless of
the supplied list, and `types[col]` with fallback `"s"` on every later
row. -/
def write_row_c2_spec (s : SheetState) (data : List (List Nat)) (types : List (List Nat)) :
    Option (SheetState × List Nat) :=
  let rowNum := (s.current_row_num + 1) % 4294967296
  match num_to_bytes rowNum with
  | none => none
  | some (rowArr, digits) =>
    match write_cells_with
        (fun col => if rowNum = 1 then ascii "str" else types.getD col (ascii "s"))
        rowArr digits s.col_num_to_letter data 0 with
    | none => none
    | some (cells, cache1) =>
      some ({ s with col_num_to_letter := cache1, current_row_num := rowNum },
        ascii "<row r=\"" ++ rowArr.drop (9 - digits) ++ ascii "\">" ++ cells ++
          ascii "</row>")

/-- `TypedSheet::write_sheet_views` (`typed_sheet.rs` 58-72): a silent
no-op once the data section has started; note this variant does NOT set
the flag itself. -/
def write_sheet_views (s : SheetState) : SheetState × List Nat :=
  if s.sheet_data_started then (s, []) else (s, sheet_views_bytes)

/-- `TypedSheet::init_sheet` (`typed_sheet.rs` 74-81): optional views,
then `<sheetData>`, then the started flag is set. -/
def init_sheet (s : SheetState) : SheetState × List Nat :=
  let v := if s.freeze_top_row then write_sheet_views s else (s, [])
  ({ v.1 with sheet_data_started := true }, v.2 ++ ascii "<sheetData>\n")

/-- `Sheet::write_sheet_views` (`sheet.rs` 53-69): sets the started flag
after emitting the views. -/
def sheet_write_sheet_views (s : SheetState) : SheetState × List Nat :=
  if s.sheet_data_started then (s, [])
  else ({ s with sheet_data_started := true }, sheet_views_bytes)

/-- `Sheet::init_sheet` (`sheet.rs` 72-80): optional views then
`<sheetData>`; unlike the typed variant, the started flag is NOT set
here. -/
def sheet_init_sheet (s : SheetState) : SheetState × List Nat :=
  let v := if s.freeze_top_row then sheet_write_sheet_views s else (s, [])
  (v.1, v.2 ++ ascii "<sheetData>\n")

/-- `TypedSheet::close` (`typed_sheet.rs` 204-218): close the data
section, optionally emit the auto-filter range `A1:<last column>1`, close
the worksheet root.  There is no closed-state flag. -/
def close (s : SheetState) : Option (SheetState × List Nat) :=
  if s.has_auto_filter then
    if 0 < s.col_num_to_letter.length then
      match col_to_letter s.col_num_to_letter (s.col_num_to_letter.length - 1) with
      | none => none
      | some (letters, cache1) =>
        some ({ s with col_num_to_letter := cache1 },
          ascii "</sheetData>\n" ++ ascii "<autoFilter ref=\"A1:" ++ letters ++
            ascii "1\"/>\n" ++ ascii "</worksheet>")
    else some (s, ascii "</sheetData>\n" ++ ascii "</worksheet>")
  else some (s, ascii "</sheetData>\n" ++ ascii "</worksheet>")

/-- `Sheet::close` (`sheet.rs` 156-173): identical to the typed variant. -/
def sheet_close (s : SheetState) : Option (SheetState × List Nat) :=
  if s.has_auto_filter then
    if 0 < s.col_num_to_letter.length then
      match col_to_letter s.col_num_to_letter (s.col_num_to_letter.length - 1) with
      | none => none
      | some (letters, cache1) =>
        some ({ s with col_num_to_letter := cache1 },
          ascii "</sheetData>\n" ++ ascii "<autoFilter ref=\"A1:" ++ letters ++
            ascii "1\"/>\n" ++ ascii "</worksheet>")
    else some (s, ascii "</sheetData>\n" ++ ascii "</worksheet>")
  else some (s, ascii "</sheetData>\n" ++ ascii "</worksheet>")

/-- Public operations of a worksheet writer, in the caller's order. -/
inductive SheetOp where
  | freezeRow
  | addFilter
  | initData
  | writeRowOp (data : List (List Nat)) (types : List (List Nat))
  | closeOp
deriving DecidableEq

/-- One operation on a `TypedSheet`; the returned bytes are those pushed
to the sink by that call. -/
def typed_step (s : SheetState) : SheetOp → Option (SheetState × List Nat)
  | SheetOp.freezeRow => some ({ s with freeze_top_row := true }, [])
  | SheetOp.addFilter => some ({ s with has_auto_filter := true }, [])
  | SheetOp.initData => some (init_sheet s)
  | SheetOp.writeRowOp data types => write_row s data types
  | SheetOp.closeOp => close s

/-- Run a sequence of operations on a `TypedSheet`, concatenating the
bytes pushed to the sink. -/
def typed_run : SheetState → List SheetOp → Option (SheetState × List Nat)
  | s, [] => some (s, [])
  | s, op :: ops =>
    match typed_step s op with
    | none => none
    | some (s1, o1) =>
      match typed_run s1 ops with
      | none => none
      | some (s2, o2) => some (s2, o1 ++ o2)

/-- One operation on a `Sheet` (the `writeRowOp` type list is ignored:
the untyped writer takes none). -/
def sheet_step (s : SheetState) : SheetOp → Option (SheetState × List Nat)
  | SheetOp.freezeRow => some ({ s with freeze_top_row := true }, [])
  | SheetOp.addFilter => some ({ s with has_auto_filter := true }, [])
  | SheetOp.initData => some (sheet_init_sheet s)
  | SheetOp.writeRowOp data _ => sheet_write_row s data
  | SheetOp.closeOp => sheet_close s

/-- Run a sequence of operations on a `Sheet`. -/
def sheet_run : SheetState → List SheetOp → Option (SheetState × List Nat)
  | s, [] => some (s, [])
  | s, op :: ops =>
    match sheet_step s op with
    | none => none
    | some (s1, o1) =>
      match sheet_run s1 ops with
      | none => none
      | some (s2, o2) => some (s2, o1 ++ o2)

/-- Largest number of cells in any row of the list (the highest column
index ever referenced is this minus one). -/
def max_row_len (rows : List (List (List Nat) × List (List Nat))) : Nat :=
  rows.foldr (fun rt m => max rt.1.length m) 0

/-- The cache contents after columns `0, 1, …, L - 1` have been looked up
in order: entry `i` holds the letters of column `i`. -/
def good_cache (L : Nat) : List (List Nat) := (List.range L).map col_letters

/-- Worksheet state after `new` followed by the optional
`freeze_top_row()` / `add_auto_filter()` configuration calls (the setters
only set their flag). -/
def config_state (freeze filter : Bool) : SheetState :=
  { col_num_to_letter := [], current_row_num := 0, has_auto_filter := filter,
    sheet_data_started := false, freeze_top_row := freeze }

/-- Whole-worksheet run of `TypedSheet`: the construction preamble,
configuration flags, `init_sheet`, the rows (each with its type list),
then `close`. -/
def typed_pipeline (freeze filter : Bool)
    (rows : List (List (List Nat) × List (List Nat))) : Option (List Nat) :=
  match typed_run (config_state freeze filter)
      (SheetOp.initData :: ((rows.map fun rt => SheetOp.writeRowOp rt.1 rt.2) ++
        [SheetOp.closeOp])) with
  | none => none
  | some so => some (preamble_bytes ++ so.2)

/-- Whole-worksheet run of the untyped `Sheet` on the same rows. -/
def sheet_pipeline (freeze filter : Bool) (rows : List (List (List Nat))) :
    Option (List Nat) :=
  match sheet_run (config_state freeze filter)
      (SheetOp.initData :: ((rows.map fun r => SheetOp.writeRowOp r []) ++
        [SheetOp.closeOp])) with
  | none => none
  | some so => some (preamble_bytes ++ so.2)

example : col_letters 0 = ascii "A" := by decide

example : col_letters 25 = ascii "Z" := by decide

example : col_letters 26 = ascii "AA" := by decide

example : col_letters 701 = ascii "ZZ" := by decide

example : col_letters 702 = ascii "AAA" := by decide

example : col_letters 32768 = ascii "9" := by decide

example : col_letters_spec 32768 = ascii "AVLI" := by decide

example : num_to_bytes 1 = some ([0, 0, 0, 0, 0, 0, 0, 0, 49], 1) := by decide

example : num_to_bytes 1000000000 = none := by decide

example : dec_repr 305 = ascii "305" := by decide

example : apply_escapes (ascii "A&B") = some (ascii "A&amp;B") := by decide

example : escape_in_place (ascii "hi") = ([], []) := by decide

theorem escape_aux_enumFrom (bs : List Nat) : ∀ x : Nat,
    escape_aux x bs =
      (((bs.enumFrom x).filterMap fun ib => (escape_repl ib.2).map fun r => (r, ib.1)).map Prod.fst,
       ((bs.enumFrom x).filterMap fun ib => (escape_repl ib.2).map fun r => (r, ib.1)).map Prod.snd) := by
  induction bs with
  | nil => intro x; simp [escape_aux]
  | cons b rest ih =>
    intro x
    cases h : escape_repl b with
    | none => simp [escape_aux, h, List.filterMap_cons, ih (x + 1)]
    | some c => simp [escape_aux, h, List.filterMap_cons, ih (x + 1)]

theorem escape_aux_pos_ge (bs : List Nat) : ∀ x : Nat, ∀ p ∈ (escape_aux x bs).2, x ≤ p := by
  induction bs with
  | nil => intro x p hp; simp [escape_aux] at hp
  | cons b rest ih =>
    intro x p hp
    cases h : escape_repl b with
    | none =>
      rw [escape_aux, h] at hp
      exact Nat.le_trans (Nat.le_succ x) (ih (x + 1) p hp)
    | some c =>
      rw [escape_aux, h] at hp
      rcases List.mem_cons.mp hp with h' | hp
      · exact Nat.le_of_eq h'.symm
      · exact Nat.le_trans (Nat.le_succ x) (ih (x + 1) p hp)

theorem drop_eq_cons_lt {datum : List Nat} {x b : Nat} {rest : List Nat}
    (hd : datum.drop x = b :: rest) : x < datum.length := by
  have hlen := congrArg List.length hd
  simp [List.length_drop] at hlen
  omega

theorem drop_succ_of_drop_cons {datum : List Nat} {x b : Nat} {rest : List Nat}
    (hd : datum.drop x = b :: rest) : datum.drop (x + 1) = rest := by
  have := congrArg List.tail hd
  simpa [List.tail_drop] using this

theorem splice_aux_cons (datum : List Nat) (cur b : Nat)
    (hd : datum.drop cur = b :: datum.drop (cur + 1)) :
    ∀ cs ps, (∀ p ∈ ps, cur + 1 ≤ p) →
      splice_aux datum cur cs ps = (splice_aux datum (cur + 1) cs ps).map (fun t => b :: t) := by
  have hlt : cur < datum.length := drop_eq_cons_lt hd
  intro cs ps hps
  match cs, ps with
  | _, [] =>
    rw [splice_aux, splice_aux, if_pos (Nat.le_of_lt hlt),
      if_pos (show cur + 1 ≤ datum.length from hlt), Option.map_some']
    rw [hd]
  | [], p :: ps' =>
    rw [splice_aux, splice_aux, Option.map_none']
  | c :: cs', p :: ps' =>
    have hp : cur + 1 ≤ p := hps p (by simp)
    rw [splice_aux, splice_aux]
    by_cases hpl : p ≤ datum.length
    · rw [if_pos ⟨Nat.le_of_succ_le hp, hpl⟩, if_pos ⟨hp, hpl⟩, Option.map_map]
      apply congrArg (fun f => Option.map f (splice_aux datum (p + 1) cs' ps'))
      funext t
      have hk : p - cur = (p - (cur + 1)) + 1 := by omega
      simp only [Function.comp]
      rw [hd, hk, List.take_succ_cons]
      rfl
    · rw [if_neg (by exact fun hc => hpl hc.2), if_neg (by exact fun hc => hpl hc.2),
        Option.map_none']

theorem splice_aux_hit (datum : List Nat) (cur b : Nat) (r : List Nat)
    (hd : datum.drop cur = b :: datum.drop (cur + 1)) :
    ∀ cs ps, splice_aux datum cur (r :: cs) (cur :: ps) =
      (splice_aux datum (cur + 1) cs ps).map (fun t => r ++ t) := by
  have hlt : cur < datum.length := drop_eq_cons_lt hd
  intro cs ps
  rw [splice_aux, if_pos ⟨Nat.le_refl cur, Nat.le_of_lt hlt⟩]
  apply congrArg (fun f => Option.map f (splice_aux datum (cur + 1) cs ps))
  funext t
  simp

theorem splice_escape (datum : List Nat) : ∀ sfx x, x ≤ datum.length → datum.drop x = sfx →
    splice_aux datum x (escape_aux x sfx).1 (escape_aux x sfx).2 =
      some ((sfx.map fun b => (escape_repl b).getD [b]).flatten) := by
  intro sfx
  induction sfx with
  | nil =>
    intro x hx hd
    rw [escape_aux]
    rw [splice_aux, if_pos hx, hd]
    simp
  | cons b rest ih =>
    intro x hx hd
    have hdrop : datum.drop (x + 1) = rest := drop_succ_of_drop_cons hd
    have hd' : datum.drop x = b :: datum.drop (x + 1) := by rw [hdrop]; exact hd
    have hx' : x + 1 ≤ datum.length := drop_eq_cons_lt hd
    cases h : escape_repl b with
    | none =>
      rw [escape_aux, h]
      rw [splice_aux_cons datum x b hd' _ _ (escape_aux_pos_ge rest (x + 1)),
        ih (x + 1) hx' hdrop]
      simp [h]
    | some c =>
      rw [escape_aux, h]
      rw [splice_aux_hit datum x b c hd', ih (x + 1) hx' hdrop]
      simp [h]

/-- C6: `escape_in_place` returns exactly one `(offset, replacement)`
substitution per occurrence of a reserved byte, in position order, with
the replacements `&lt; &gt; &apos; &amp; &quot;`, and no substitution for
any other byte (hence none for empty or clean input); consequently the
spliced cell value assembled by `write_row` equals the input with each
reserved byte replaced by its entity and all surrounding bytes kept. -/
theorem claim_c6 (bs : List Nat) :
    escape_in_place bs =
      (((bs.enum.filterMap fun ib => (escape_repl ib.2).map fun r => (r, ib.1)).map Prod.fst),
       ((bs.enum.filterMap fun ib => (escape_repl ib.2).map fun r => (r, ib.1)).map Prod.snd)) ∧
    apply_escapes bs = some ((bs.map fun b => (escape_repl b).getD [b]).flatten) := by
  constructor
  · simpa [List.enum] using escape_aux_enumFrom bs 0
  · exact splice_escape bs bs 0 (Nat.zero_le _) rfl

theorem col_step_bound {n g : Nat} (h : n < 26 ^ (g + 1)) (hn : ¬ n < 26) :
    n / 26 - 1 < 26 ^ g ∧ 0 < g := by
  have hdiv : n / 26 < 26 ^ g := by
    rw [Nat.div_lt_iff_lt_mul (by omega : 0 < 26)]
    calc n < 26 ^ (g + 1) := h
      _ = 26 ^ g * 26 := by ring
  refine ⟨by omega, ?_⟩
  rcases Nat.eq_zero_or_pos g with rfl | hg
  · norm_num at h; omega
  · exact hg

theorem col_digits_spec_aux_fuel : ∀ f1 f2 n : Nat, n < 26 ^ f1 → n < 26 ^ f2 →
    0 < f1 → 0 < f2 → col_digits_spec_aux f1 n = col_digits_spec_aux f2 n := by
  intro f1
  induction f1 with
  | zero => intro f2 n h1 h2 h0; exact absurd h0 (Nat.lt_irrefl 0)
  | succ g ih =>
    intro f2 n h1 h2 _ hf2
    obtain ⟨f3, rfl⟩ : ∃ f3, f2 = f3 + 1 := ⟨f2 - 1, by omega⟩
    simp only [col_digits_spec_aux]
    by_cases hn : n < 26
    · rw [if_pos hn, if_pos hn]
    · rw [if_neg hn, if_neg hn]
      obtain ⟨hb1, hg1⟩ := col_step_bound h1 hn
      obtain ⟨hb2, hg2⟩ := col_step_bound h2 hn
      rw [ih f3 (n / 26 - 1) hb1 hb2 hg1 hg2]

theorem col_digits_aux_spec : ∀ fuel c : Nat, c < 26 ^ fuel → 0 < fuel →
    col_digits_aux fuel (c : Int) = col_digits_spec_aux fuel c := by
  intro fuel
  induction fuel with
  | zero => intro c h h0; exact absurd h0 (Nat.lt_irrefl 0)
  | succ g ih =>
    intro c h _
    have htm : Int.tmod (c : Int) 26 = ((c % 26 : Nat) : Int) := rfl
    have htd : Int.tdiv (c : Int) 26 = ((c / 26 : Nat) : Int) := rfl
    simp only [col_digits_aux, col_digits_spec_aux, htm, htd]
    have hd : ((65 + ((c % 26 : Nat) : Int) % 256) % 256).toNat = 65 + c % 26 := by omega
    rw [hd]
    by_cases hc : c < 26
    · have hz : c / 26 = 0 := Nat.div_eq_of_lt hc
      rw [if_pos (by rw [hz]; norm_num), if_pos hc]
    · obtain ⟨hb, hg⟩ := col_step_bound h hc
      rw [if_neg (by omega : ¬ (((c / 26 : Nat) : Int) - 1 < 0)), if_neg hc]
      rw [(by omega : ((c / 26 : Nat) : Int) - 1 = ((c / 26 - 1 : Nat) : Int))]
      rw [ih (c / 26 - 1) hb hg]

theorem lt_pow_succ_self (n : Nat) : n < 26 ^ (n + 1) :=
  lt_of_lt_of_le (Nat.lt_pow_self (by omega) n)
    (Nat.pow_le_pow_right (by omega) (Nat.le_succ n))

theorem letters_val_spec_aux : ∀ fuel n : Nat, n < 26 ^ fuel → 0 < fuel →
    letters_val_lsb (col_digits_spec_aux fuel n) = n + 1 := by
  intro fuel
  induction fuel with
  | zero => intro n h h0; exact absurd h0 (Nat.lt_irrefl 0)
  | succ g ih =>
    intro n h _
    simp only [col_digits_spec_aux]
    by_cases hn : n < 26
    · rw [if_pos hn]
      simp only [letters_val_lsb]
      omega
    · rw [if_neg hn]
      obtain ⟨hb, hg⟩ := col_step_bound h hn
      simp only [letters_val_lsb]
      rw [ih (n / 26 - 1) hb hg]
      omega

theorem foldl_reverse_letters : ∀ ds : List Nat, ∀ acc : Nat,
    ds.reverse.foldl (fun acc d => acc * 26 + (d - 64)) acc =
      acc * 26 ^ ds.length + letters_val_lsb ds := by
  intro ds
  induction ds with
  | nil => intro acc; simp [letters_val_lsb]
  | cons d ds ih =>
    intro acc
    simp only [List.reverse_cons, List.foldl_append, List.foldl_cons, List.foldl_nil, ih,
      letters_val_lsb, List.length_cons]
    ring

theorem letters_to_index_spec (n : Nat) : letters_to_index (col_letters_spec n) = n := by
  unfold letters_to_index col_letters_spec
  rw [foldl_reverse_letters]
  rw [letters_val_spec_aux (n + 1) n (lt_pow_succ_self n) (by omega)]
  omega

theorem col_letters_eq_spec {c : Nat} (h : c < 32768) : col_letters c = col_letters_spec c := by
  unfold col_letters col_letters_spec
  have hcast : i16_of_nat c = (c : Int) := by
    unfold i16_of_nat
    rw [Nat.mod_eq_of_lt (by omega : c < 65536)]
    rw [if_pos h]
  rw [hcast]
  have h16 : c < 26 ^ 16 := lt_of_lt_of_le h (by norm_num)
  rw [col_digits_aux_spec 16 c h16 (by omega)]
  rw [col_digits_spec_aux_fuel 16 (c + 1) c h16 (lt_pow_succ_self c) (by omega) (by omega)]

/-- C3 (amended to indices below `2 ^ 15`): for every column index
`c < 32768` the encoder of `col_to_letter` returns exactly the base-26
no-zero-digit letter string described by the specification, and decoding
then re-encoding is the identity.  (At `c = 32768` the source's `i16`
cast wraps and the property fails, see the counterexample.) -/
theorem claim_c3 (c : Nat) (h : c < 32768) :
    col_letters c = col_letters_spec c ∧ letters_to_index (col_letters c) = c := by
  refine ⟨col_letters_eq_spec h, ?_⟩
  rw [col_letters_eq_spec h]
  exact letters_to_index_spec c

theorem claim_c3_witness :
    (702 < 32768 ∧
      (col_letters 702 = col_letters_spec 702 ∧ letters_to_index (col_letters 702) = 702)) ∧
    col_letters 0 = ascii "A" ∧ col_letters 25 = ascii "Z" ∧ col_letters 26 = ascii "AA" ∧
    col_letters 701 = ascii "ZZ" ∧ col_letters 702 = ascii "AAA" :=
  ⟨⟨by decide, claim_c3 702 (by decide)⟩, by decide, by decide, by decide, by decide, by decide⟩

/-- C3 counterexample: at column index 32768 the `col as i16` cast wraps
to -32768 and the encoder emits the single byte `"9"`, not the base-26
letter string `"AVLI"`; decoding then re-encoding is not the identity. -/
theorem claim_c3_cex :
    col_letters 32768 ≠ col_letters_spec 32768 ∧
    letters_to_index (col_letters 32768) ≠ 32768 :=
  ⟨by decide, by decide⟩

theorem take_set_of_le (v : Nat) : ∀ (l : List Nat) (i k : Nat), k ≤ i →
    (l.set i v).take k = l.take k := by
  intro l
  induction l with
  | nil => intro i k h; simp
  | cons a l ih =>
    intro i k h
    cases i with
    | zero =>
      have : k = 0 := Nat.le_zero.mp h
      subst this
      simp
    | succ i =>
      cases k with
      | zero => simp
      | succ k => simp [List.set, List.take_succ_cons, ih i k (by omega)]

theorem drop_set_eq_cons (v : Nat) (l : List Nat) (i : Nat) (h : i < l.length) :
    (l.set i v).drop i = v :: l.drop (i + 1) := by
  rw [List.set_eq_take_cons_drop v h]
  have hlen : (l.take i).length = i := by
    rw [List.length_take]
    omega
  have hdl := List.drop_left (l.take i) (v :: l.drop (i + 1))
  rwa [hlen] at hdl

theorem dec_lsb_aux_zero (fuel : Nat) : dec_lsb_aux fuel 0 = [] := by
  cases fuel <;> rfl

theorem dec_lsb_aux_fuel : ∀ f1 f2 n : Nat, n ≤ f1 → n ≤ f2 →
    dec_lsb_aux f1 n = dec_lsb_aux f2 n := by
  intro f1
  induction f1 with
  | zero =>
    intro f2 n h1 h2
    have : n = 0 := by omega
    subst this
    rw [dec_lsb_aux_zero, dec_lsb_aux_zero]
  | succ g ih =>
    intro f2 n h1 h2
    cases n with
    | zero => rw [dec_lsb_aux_zero, dec_lsb_aux_zero]
    | succ m =>
      obtain ⟨f3, rfl⟩ : ∃ f3, f2 = f3 + 1 := ⟨f2 - 1, by omega⟩
      rw [dec_lsb_aux, dec_lsb_aux]
      rw [ih f3 ((m + 1) / 10) (by omega) (by omega)]

theorem dec_repr_single {n : Nat} (h1 : 1 ≤ n) (h2 : n < 10) :
    dec_repr n = [48 + n % 10] := by
  obtain ⟨m, rfl⟩ : ∃ m, n = m + 1 := ⟨n - 1, by omega⟩
  unfold dec_repr
  rw [dec_lsb_aux, (by omega : (m + 1) / 10 = 0), dec_lsb_aux_zero]
  rfl

theorem dec_repr_step {n : Nat} (h1 : 1 ≤ n) :
    dec_repr n = dec_repr (n / 10) ++ [48 + n % 10] := by
  obtain ⟨m, rfl⟩ : ∃ m, n = m + 1 := ⟨n - 1, by omega⟩
  unfold dec_repr
  rw [dec_lsb_aux]
  rw [dec_lsb_aux_fuel m ((m + 1) / 10) ((m + 1) / 10) (by omega) (by omega)]
  simp

theorem dec_repr_length_le : ∀ k n : Nat, n < 10 ^ k → (dec_repr n).length ≤ k := by
  intro k
  induction k with
  | zero =>
    intro n h
    norm_num at h
    subst h
    simp [dec_repr, dec_lsb_aux_zero]
  | succ k ih =>
    intro n h
    rcases Nat.eq_zero_or_pos n with rfl | hn
    · simp [dec_repr, dec_lsb_aux_zero]
    · rw [dec_repr_step hn]
      have hdiv : n / 10 < 10 ^ k := by
        rw [Nat.div_lt_iff_lt_mul (by omega : 0 < 10)]
        calc n < 10 ^ (k + 1) := h
          _ = 10 ^ k * 10 := by ring
      have := ih (n / 10) hdiv
      simp only [List.length_append, List.length_cons, List.length_nil]
      omega

theorem dec_repr_length_pos {n : Nat} (h : 1 ≤ n) : 1 ≤ (dec_repr n).length := by
  rw [dec_repr_step h]
  simp

theorem usize_sub1_succ (c : Nat) (h : c < 18446744073709551615) :
    usize_sub1 (c + 1) = c := by
  unfold usize_sub1
  omega

theorem num_to_bytes_aux_ok : ∀ charPos n arr digits fuel,
    arr.length = 9 → charPos ≤ 8 → 1 ≤ n → n < 10 ^ (charPos + 1) → charPos + 1 ≤ fuel →
    num_to_bytes_aux fuel n arr charPos digits =
      some (arr.take (charPos + 1 - (dec_repr n).length) ++ dec_repr n ++ arr.drop (charPos + 1),
        digits + (dec_repr n).length) := by
  intro charPos
  induction charPos with
  | zero =>
    intro n arr digits fuel hlen hcp h1 h2 hf
    obtain ⟨f, rfl⟩ : ∃ f, fuel = f + 1 := ⟨fuel - 1, by omega⟩
    obtain ⟨m, rfl⟩ : ∃ m, n = m + 1 := ⟨n - 1, by omega⟩
    norm_num at h2
    rw [num_to_bytes_aux, if_pos (by omega : 0 < arr.length)]
    rw [(by omega : (m + 1) / 10 = 0)]
    rw [num_to_bytes_aux]
    rw [dec_repr_single h1 h2]
    rw [List.set_eq_take_cons_drop _ (by omega : 0 < arr.length)]
    simp

  | succ c ih =>
    intro n arr digits fuel hlen hcp h1 h2 hf
    obtain ⟨f, rfl⟩ : ∃ f, fuel = f + 1 := ⟨fuel - 1, by omega⟩
    obtain ⟨m, rfl⟩ : ∃ m, n = m + 1 := ⟨n - 1, by omega⟩
    rw [num_to_bytes_aux, if_pos (by omega : c + 1 < arr.length)]
    rw [usize_sub1_succ c (by omega)]
    by_cases hsmall : m + 1 < 10
    · rw [(by omega : (m + 1) / 10 = 0)]
      rw [num_to_bytes_aux]
      rw [dec_repr_single h1 hsmall]
      rw [List.set_eq_take_cons_drop _ (by omega : c + 1 < arr.length)]
      simp
    · have hdivpos : 1 ≤ (m + 1) / 10 := by omega
      have hdivlt : (m + 1) / 10 < 10 ^ (c + 1) := by
        rw [Nat.div_lt_iff_lt_mul (by omega : 0 < 10)]
        calc m + 1 < 10 ^ (c + 1 + 1) := h2
          _ = 10 ^ (c + 1) * 10 := by ring
      rw [ih ((m + 1) / 10) (arr.set (c + 1) (48 + (m + 1) % 10)) (digits + 1) f
        (by simp [hlen]) (by omega) hdivpos hdivlt (by omega)]
      have hL := dec_repr_length_le (c + 1) ((m + 1) / 10) hdivlt
      have hstep := dec_repr_step (n := m + 1) h1
      have hLs : (dec_repr (m + 1)).length = (dec_repr ((m + 1) / 10)).length + 1 := by
        rw [hstep]; simp
      rw [take_set_of_le _ _ _ _ (by omega)]
      rw [drop_set_eq_cons _ _ _ (by omega : c + 1 < arr.length)]
      rw [hLs, hstep]
      rw [(by omega : c + 1 + 1 - ((dec_repr ((m + 1) / 10)).length + 1)
        = c + 1 - (dec_repr ((m + 1) / 10)).length)]
      rw [(by omega : digits + 1 + (dec_repr ((m + 1) / 10)).length
        = digits + ((dec_repr ((m + 1) / 10)).length + 1))]
      simp [List.append_assoc]

theorem num_to_bytes_ok {n : Nat} (h1 : 1 ≤ n) (h2 : n ≤ 999999999) :
    num_to_bytes n =
      some (List.replicate (9 - (dec_repr n).length) 0 ++ dec_repr n,
        (dec_repr n).length) := by
  unfold num_to_bytes
  rw [num_to_bytes_aux_ok 8 n (List.replicate 9 0) 0 10 (by simp) (by omega) h1
    (by norm_num; omega) (by omega)]
  have hL : (dec_repr n).length ≤ 9 := dec_repr_length_le 9 n (by norm_num; omega)
  have hdrop : (List.replicate 9 (0 : Nat)).drop (8 + 1) = [] := by simp
  have htake : (List.replicate 9 (0 : Nat)).take (8 + 1 - (dec_repr n).length)
      = List.replicate (9 - (dec_repr n).length) 0 := by
    rw [List.take_replicate]
    congr 1
    omega
  rw [htake, hdrop, List.append_nil, Nat.zero_add]

theorem num_to_bytes_aux_big : ∀ charPos n arr digits fuel, arr.length = 9 → charPos ≤ 8 →
    10 ^ (charPos + 1) ≤ n → charPos + 2 ≤ fuel →
    num_to_bytes_aux fuel n arr charPos digits = none := by
  intro charPos
  induction charPos with
  | zero =>
    intro n arr digits fuel hlen hcp hn hf
    norm_num at hn
    obtain ⟨f, rfl⟩ : ∃ f, fuel = f + 2 := ⟨fuel - 2, by omega⟩
    obtain ⟨m, rfl⟩ : ∃ m, n = m + 1 := ⟨n - 1, by omega⟩
    rw [num_to_bytes_aux, if_pos (by omega : 0 < arr.length)]
    obtain ⟨k, hk⟩ : ∃ k, (m + 1) / 10 = k + 1 := ⟨(m + 1) / 10 - 1, by omega⟩
    rw [hk, num_to_bytes_aux]
    rw [if_neg (by simp [usize_sub1, hlen])]
  | succ c ih =>
    intro n arr digits fuel hlen hcp hn hf
    have hp : 0 < 10 ^ (c + 1 + 1) := pow_pos (by omega) _
    obtain ⟨f, rfl⟩ : ∃ f, fuel = f + 1 := ⟨fuel - 1, by omega⟩
    obtain ⟨m, rfl⟩ : ∃ m, n = m + 1 := ⟨n - 1, by omega⟩
    rw [num_to_bytes_aux, if_pos (by omega : c + 1 < arr.length)]
    rw [usize_sub1_succ c (by omega)]
    apply ih
    · simp [hlen]
    · omega
    · rw [Nat.le_div_iff_mul_le (by omega : 0 < 10)]
      calc 10 ^ (c + 1) * 10 = 10 ^ (c + 1 + 1) := by ring
        _ ≤ m + 1 := hn
    · omega

theorem num_to_bytes_big {n : Nat} (h : 1000000000 ≤ n) : num_to_bytes n = none := by
  unfold num_to_bytes
  apply num_to_bytes_aux_big 8 n (List.replicate 9 0) 0 10 (by simp) (by omega)
    (by omega) (by omega)

/-- C5 (amended to `1 ≤ n ≤ 999999999`): for every row counter with at
most nine decimal digits, `num_to_bytes` fills the fixed nine-byte buffer
so that its last `digits` bytes are exactly the standard decimal ASCII
representation of `n` with no leading zeros, and the returned digit count
equals the number of decimal digits of `n`; the `Sheet` variant agrees.
(At `n = 10 ^ 9` the write pointer leaves the buffer and the code panics,
see the counterexample.) -/
theorem claim_c5 (n : Nat) (h1 : 1 ≤ n) (h2 : n ≤ 999999999) :
    ∃ arr, num_to_bytes n = some (arr, (dec_repr n).length) ∧
      arr.drop (9 - (dec_repr n).length) = dec_repr n ∧
      sheet_num_to_bytes n = num_to_bytes n := by
  refine ⟨_, num_to_bytes_ok h1 h2, ?_, ?_⟩
  · have hdl := List.drop_left (List.replicate (9 - (dec_repr n).length) 0) (dec_repr n)
    rwa [List.length_replicate] at hdl
  · unfold sheet_num_to_bytes num_to_bytes
    rw [if_neg (by omega)]

theorem claim_c5_witness :
    1 ≤ 305 ∧ 305 ≤ 999999999 ∧
      ∃ arr, num_to_bytes 305 = some (arr, (dec_repr 305).length) ∧
        arr.drop (9 - (dec_repr 305).length) = dec_repr 305 ∧
        sheet_num_to_bytes 305 = num_to_bytes 305 :=
  ⟨by decide, by decide, claim_c5 305 (by decide) (by decide)⟩

/-- C5 counterexample: at row counter `n = 10 ^ 9` (the first value with
ten decimal digits) the digit loop runs out of the nine-byte buffer and
panics; no decimal representation is produced, refuting the claim's
universal quantification over all `n ≥ 1`. -/
theorem claim_c5_cex :
    num_to_bytes 1000000000 = none ∧ sheet_num_to_bytes 1000000000 = none :=
  ⟨by decide, by decide⟩

theorem parse_items_hour_none : ∀ (fmt : List FmtItem) (bs : List Nat) (p q : ChronoParsed),
    parse_items fmt bs p = some q → q.hour = p.hour ∧ q.minute = p.minute := by
  intro fmt
  induction fmt with
  | nil =>
    intro bs p q h
    cases bs with
    | nil => rw [parse_items] at h; cases h; exact ⟨rfl, rfl⟩
    | cons b r => rw [parse_items] at h; cases h
  | cons item items ih =>
    intro bs p q h
    cases item with
    | numYear =>
      rw [parse_items] at h
      cases hp : parse_num 4 bs with
      | none => rw [hp] at h; cases h
      | some vr =>
        obtain ⟨v, rest⟩ := vr
        rw [hp] at h
        exact ih rest { p with year := some v } q (by exact h)
    | numMonth =>
      rw [parse_items] at h
      cases hp : parse_num 2 bs with
      | none => rw [hp] at h; cases h
      | some vr =>
        obtain ⟨v, rest⟩ := vr
        rw [hp] at h
        exact ih rest { p with month := some v } q (by exact h)
    | numDay =>
      rw [parse_items] at h
      cases hp : parse_num 2 bs with
      | none => rw [hp] at h; cases h
      | some vr =>
        obtain ⟨v, rest⟩ := vr
        rw [hp] at h
        exact ih rest { p with day := some v } q (by exact h)
    | lit b =>
      cases bs with
      | nil => rw [parse_items] at h; cases h
      | cons c rest =>
        rw [parse_items] at h
        by_cases hc : c = b
        · rw [if_pos hc] at h; exact ih rest p q h
        · rw [if_neg hc] at h; cases h

/-- The date branches of `infer_row_types` are dead code: a
`NaiveDateTime` parse with a date-only format never succeeds, because the
required time-of-day fields are never set. -/
theorem naive_datetime_parse_never (fmt : List FmtItem) (bs : List Nat) :
    naive_datetime_parse_ok fmt bs = false := by
  unfold naive_datetime_parse_ok
  cases hp : parse_items fmt bs {} with
  | none => rfl
  | some p =>
    obtain ⟨hh, _⟩ := parse_items_hour_none fmt bs {} p hp
    simp [hh]

example : infer_row_types [ascii "-7", ascii "+3", ascii "1e5", ascii "NaN", ascii ".5"]
    = [ascii "n", ascii "n", ascii "n", ascii "n", ascii "n"] := by decide

example : infer_row_types [ascii "9223372036854775808", ascii "-9223372036854775808"]
    = [ascii "n", ascii "n"] := by decide

/-- C1: evaluation of `infer_row_types` at the specification's own
examples.  Integers and floats infer `"n"` as claimed, but the date
inputs `"2024-01-05"` and `"01/05/2024"` infer `"str"`, not `"d"`: the
source parses them with `NaiveDateTime::parse_from_str`, which always
fails on a date-only format (no time fields), so the `TYPE_DATE` branches
are dead code. -/
theorem claim_c1 :
    infer_row_types [ascii "42", ascii "3.14", ascii "2024-01-05", ascii "01/05/2024",
        ascii "hello", []] =
      [ascii "n", ascii "n", ascii "str", ascii "str", ascii "str", ascii "str"] := by
  decide

theorem write_cells_hdr_eq_with (rowArr : List Nat) (digits : Nat) :
    ∀ (data cache : List (List Nat)) (col : Nat),
      write_cells_hdr rowArr digits cache data col =
        write_cells_with (fun _ => ascii "str") rowArr digits cache data col := by
  intro data
  induction data with
  | nil => intro cache col; rfl
  | cons datum rest ih =>
    intro cache col
    rw [write_cells_hdr, write_cells_with]
    have hlit : ascii "\" t=\"str\"><v>" =
        ascii "\" t=\"" ++ ascii "str" ++ ascii "\"><v>" := by decide
    simp only [ih, hlit, List.append_assoc]

theorem write_cells_typed_eq_with (types : List (List Nat)) (rowArr : List Nat)
    (digits : Nat) :
    ∀ (data cache : List (List Nat)) (col : Nat),
      write_cells_typed types rowArr digits cache data col =
        write_cells_with (fun c => types.getD c (ascii "s")) rowArr digits cache data col := by
  intro data
  induction data with
  | nil => intro cache col; rfl
  | cons datum rest ih =>
    intro cache col
    rw [write_cells_typed, write_cells_with]
    simp only [ih]

theorem write_cells_sheet_eq_hdr (rowArr : List Nat) (digits : Nat) :
    ∀ (data cache : List (List Nat)) (col : Nat),
      write_cells_sheet rowArr digits cache data col =
        write_cells_hdr rowArr digits cache data col := by
  intro data
  induction data with
  | nil => intro cache col; rfl
  | cons datum rest ih =>
    intro cache col
    rw [write_cells_sheet, write_cells_hdr]
    simp only [ih]

/-- C2: `TypedSheet::write_row` emits, for every cell, exactly the type
tag described by the claim — on the first data row (row counter value 1)
always `"str"` regardless of the supplied type list, and on every later
row the supplied type at the cell's column index, with `"s"` once the
index is at or beyond the list's length. -/
theorem claim_c2 (s : SheetState) (data types : List (List Nat)) :
    write_row s data types = write_row_c2_spec s data types := by
  simp only [write_row, write_row_c2_spec]
  cases hnb : num_to_bytes ((s.current_row_num + 1) % 4294967296) with
  | none => rfl
  | some rd =>
    obtain ⟨rowArr, digits⟩ := rd
    by_cases h1 : (s.current_row_num + 1) % 4294967296 = 1
    · simp only [h1, if_pos, if_true, eq_self_iff_true]
      rw [write_cells_hdr_eq_with]
    · simp only [if_neg h1]
      rw [write_cells_typed_eq_with]

/-- C4: on a fresh worksheet (empty cache), requesting column 5 before
column 2 does not return the letters of column 5: the code pushes the
encoded letters (which would be `"F"`, as the second conjunct shows) at
cache index 0 and then indexes the cache at 5, which is out of bounds — a
panic, not a correct answer, refuting the claimed call-order
independence. -/
theorem claim_c4 :
    col_to_letter [] 5 = none ∧ col_letters 5 = ascii "F" :=
  ⟨by decide, by decide⟩

set_option maxRecDepth 100000 in
/-- C7: writing a row after `close` does not fail: the four-operation
trace `init_sheet; write_row ["x"]; close; write_row ["y"]` succeeds end
to end, and the second `write_row` appends a fresh
`<row r="2"><c r="A2" t="s"><v>y</v></c></row>` after `</worksheet>`
instead of returning an `InvalidStateTransition` error and leaving the
sink unchanged.  (`TypedSheet` has no closed-state flag at all.) -/
theorem claim_c7 :
    typed_run new_state [SheetOp.initData, SheetOp.writeRowOp [ascii "x"] [ascii "str"],
        SheetOp.closeOp, SheetOp.writeRowOp [ascii "y"] []] =
      some ({ col_num_to_letter := [ascii "A"], current_row_num := 2,
              has_auto_filter := false, sheet_data_started := true,
              freeze_top_row := false },
        ascii "<sheetData>\n<row r=\"1\"><c r=\"A1\" t=\"str\"><v>x</v></c></row></sheetData>\n</worksheet><row r=\"2\"><c r=\"A2\" t=\"s\"><v>y</v></c></row>") := by
  decide

set_option maxRecDepth 100000 in
/-- C9: the untyped `Sheet` violates the invariant.  `Sheet::init_sheet`
never sets `sheet_data_started`, so after `init_sheet; freeze_top_row;
init_sheet` the second initialization emits the presentation-only
`sheetViews` block AFTER the data section was opened: the sink holds
`<sheetData>` followed by the views block. -/
theorem claim_c9 :
    sheet_run new_state [SheetOp.initData, SheetOp.freezeRow, SheetOp.initData] =
      some ({ col_num_to_letter := [], current_row_num := 0, has_auto_filter := false,
              sheet_data_started := true, freeze_top_row := true },
        ascii "<sheetData>\n" ++ sheet_views_bytes ++ ascii "<sheetData>\n") := by
  decide

theorem good_cache_length (L : Nat) : (good_cache L).length = L := by
  simp [good_cache]

theorem good_cache_get {L col : Nat} (h : col < L) :
    (good_cache L)[col]? = some (col_letters col) := by
  simp [good_cache, List.getElem?_map, List.getElem?_range, h]

theorem col_to_letter_lt {L col : Nat} (h : col < L) :
    col_to_letter (good_cache L) col = some (col_letters col, good_cache L) := by
  simp only [col_to_letter]
  rw [if_neg (by rw [good_cache_length]; omega)]
  rw [good_cache_get h]

theorem col_to_letter_eq_len (L : Nat) :
    col_to_letter (good_cache L) L = some (col_letters L, good_cache (L + 1)) := by
  simp only [col_to_letter]
  rw [if_pos (by rw [good_cache_length]; omega)]
  have hgrow : good_cache L ++ [col_letters L] = good_cache (L + 1) := by
    simp [good_cache, List.range_succ]
  rw [hgrow, good_cache_get (by omega : L < L + 1)]

theorem write_cells_with_cache (tagOf : Nat → List Nat) (rowArr : List Nat) (digits : Nat) :
    ∀ (data : List (List Nat)) (L col : Nat) (out : List Nat) (cache2 : List (List Nat)),
      col ≤ L →
      write_cells_with tagOf rowArr digits (good_cache L) data col = some (out, cache2) →
      cache2 = good_cache (max L (col + data.length)) := by
  intro data
  induction data with
  | nil =>
    intro L col out cache2 hcol h
    rw [write_cells_with] at h
    simp only [Option.some.injEq, Prod.mk.injEq] at h
    obtain ⟨-, h2⟩ := h
    rw [← h2]
    congr 1
    simp
    omega
  | cons datum rest ih =>
    intro L col out cache2 hcol h
    rw [write_cells_with] at h
    have hctl : col_to_letter (good_cache L) col =
        some (col_letters col, good_cache (max L (col + 1))) := by
      rcases Nat.lt_or_ge col L with hlt | hge
      · rw [(by omega : max L (col + 1) = L)]
        exact col_to_letter_lt hlt
      · have hEq : col = L := by omega
        subst hEq
        rw [(by omega : max col (col + 1) = col + 1)]
        exact col_to_letter_eq_len col
    rw [ref_id, hctl] at h
    dsimp only at h
    by_cases hfit : (col_letters col).length + digits ≤ 12
    · rw [if_pos hfit] at h
      cases hesc : apply_escapes datum with
      | none => rw [hesc] at h; cases h
      | some esc =>
        rw [hesc] at h
        dsimp only at h
        cases hrec : write_cells_with tagOf rowArr digits
            (good_cache (max L (col + 1))) rest (col + 1) with
        | none => rw [hrec] at h; cases h
        | some oc =>
          obtain ⟨out1, cache3⟩ := oc
          rw [hrec] at h
          have hmid := ih (max L (col + 1)) (col + 1) out1 cache3 (by omega) hrec
          simp only [Option.some.injEq, Prod.mk.injEq] at h
          obtain ⟨-, h2⟩ := h
          rw [← h2, hmid]
          congr 1
          simp only [List.length_cons]
          omega
    · rw [if_neg hfit] at h
      cases h

theorem write_row_cache {s : SheetState} {data types : List (List Nat)} {L : Nat}
    {s1 : SheetState} {o : List Nat}
    (hc : s.col_num_to_letter = good_cache L)
    (h : write_row s data types = some (s1, o)) :
    s1.col_num_to_letter = good_cache (max L data.length) ∧
      s1.has_auto_filter = s.has_auto_filter ∧
      s1.sheet_data_started = s.sheet_data_started ∧
      s1.freeze_top_row = s.freeze_top_row := by
  simp only [write_row] at h
  cases hnb : num_to_bytes ((s.current_row_num + 1) % 4294967296) with
  | none => rw [hnb] at h; cases h
  | some rd =>
    obtain ⟨rowArr, digits⟩ := rd
    rw [hnb] at h
    dsimp only at h
    by_cases h1 : (s.current_row_num + 1) % 4294967296 = 1
    · rw [if_pos h1, write_cells_hdr_eq_with, hc] at h
      cases hwc : write_cells_with (fun _ => ascii "str") rowArr digits
          (good_cache L) data 0 with
      | none => rw [hwc] at h; cases h
      | some co =>
        obtain ⟨cells, cache1⟩ := co
        rw [hwc] at h
        have hcc := write_cells_with_cache _ rowArr digits data L 0 cells cache1
          (by omega) hwc
        simp only [Option.some.injEq, Prod.mk.injEq] at h
        obtain ⟨h2, -⟩ := h
        rw [← h2]
        refine ⟨?_, rfl, rfl, rfl⟩
        show cache1 = good_cache (max L data.length)
        rw [hcc]
        congr 1
        omega
    · rw [if_neg h1, write_cells_typed_eq_with, hc] at h
      cases hwc : write_cells_with (fun c => types.getD c (ascii "s")) rowArr digits
          (good_cache L) data 0 with
      | none => rw [hwc] at h; cases h
      | some co =>
        obtain ⟨cells, cache1⟩ := co
        rw [hwc] at h
        have hcc := write_cells_with_cache _ rowArr digits data L 0 cells cache1
          (by omega) hwc
        simp only [Option.some.injEq, Prod.mk.injEq] at h
        obtain ⟨h2, -⟩ := h
        rw [← h2]
        refine ⟨?_, rfl, rfl, rfl⟩
        show cache1 = good_cache (max L data.length)
        rw [hcc]
        congr 1
        omega

theorem typed_run_rows_cache :
    ∀ (rows : List (List (List Nat) × List (List Nat))) (s : SheetState) (L : Nat)
      (s2 : SheetState) (out : List Nat),
      s.col_num_to_letter = good_cache L →
      typed_run s (rows.map fun rt => SheetOp.writeRowOp rt.1 rt.2) = some (s2, out) →
      s2.col_num_to_letter = good_cache (max L (max_row_len rows)) ∧
        s2.has_auto_filter = s.has_auto_filter ∧
        s2.sheet_data_started = s.sheet_data_started ∧
        s2.freeze_top_row = s.freeze_top_row := by
  intro rows
  induction rows with
  | nil =>
    intro s L s2 out hc h
    rw [List.map_nil, typed_run] at h
    simp only [Option.some.injEq, Prod.mk.injEq] at h
    obtain ⟨h1, -⟩ := h
    rw [← h1]
    refine ⟨?_, rfl, rfl, rfl⟩
    rw [hc]
    congr 1
    simp [max_row_len]
  | cons rt rest ih =>
    intro s L s2 out hc h
    rw [List.map_cons, typed_run] at h
    simp only [typed_step] at h
    cases hw : write_row s rt.1 rt.2 with
    | none => rw [hw] at h; cases h
    | some so =>
      obtain ⟨s1, o1⟩ := so
      rw [hw] at h
      dsimp only at h
      cases hr : typed_run s1 (rest.map fun rt => SheetOp.writeRowOp rt.1 rt.2) with
      | none => rw [hr] at h; cases h
      | some so2 =>
        obtain ⟨s3, o2⟩ := so2
        rw [hr] at h
        simp only [Option.some.injEq, Prod.mk.injEq] at h
        obtain ⟨h2, -⟩ := h
        obtain ⟨hc1, hf1, hd1, hz1⟩ := write_row_cache hc hw
        obtain ⟨hc2, hf2, hd2, hz2⟩ := ih s1 (max L rt.1.length) s3 o2 hc1 hr
        rw [← h2]
        refine ⟨?_, by rw [hf2, hf1], by rw [hd2, hd1], by rw [hz2, hz1]⟩
        rw [hc2]
        congr 1
        simp [max_row_len]
        omega

theorem close_good_cache {s : SheetState} {M : Nat} (hM : 0 < M)
    (hc : s.col_num_to_letter = good_cache M) (hf : s.has_auto_filter = true) :
    close s = some (s, ascii "</sheetData>\n" ++ ascii "<autoFilter ref=\"A1:" ++
      col_letters (M - 1) ++ ascii "1\"/>\n" ++ ascii "</worksheet>") := by
  rw [close, hf, hc, good_cache_length]
  rw [if_pos rfl, if_pos hM]
  rw [col_to_letter_lt (by omega : M - 1 < M)]
  rw [← hc]
  dsimp only
  rw [← hf]

set_option maxRecDepth 100000 in
/-- C8: on a worksheet where the auto-filter flag was set, the sheet was
initialized, and the row writes referenced at least one column, `close`
emits — after closing the data section and before closing the worksheet
root — an `autoFilter` element whose range runs from column A through the
letters of the highest column index ever referenced, spanning row 1 only
(`A1:B1` for a two-column sheet). -/
theorem claim_c8 (freeze : Bool) (rows : List (List (List Nat) × List (List Nat)))
    (s1 s2 : SheetState) (o1 o2 : List Nat)
    (hcfg : typed_run new_state ((if freeze then [SheetOp.freezeRow] else []) ++
      [SheetOp.addFilter, SheetOp.initData]) = some (s1, o1))
    (hrows : typed_run s1 (rows.map fun rt => SheetOp.writeRowOp rt.1 rt.2) = some (s2, o2))
    (hpos : 0 < max_row_len rows) :
    close s2 = some (s2, ascii "</sheetData>\n" ++ ascii "<autoFilter ref=\"A1:" ++
      col_letters (max_row_len rows - 1) ++ ascii "1\"/>\n" ++ ascii "</worksheet>") := by
  have hstate : s1.col_num_to_letter = good_cache 0 ∧ s1.has_auto_filter = true := by
    cases freeze with
    | false =>
      have heval : typed_run new_state ((if false then [SheetOp.freezeRow] else []) ++
          [SheetOp.addFilter, SheetOp.initData]) =
          some ({ col_num_to_letter := [], current_row_num := 0, has_auto_filter := true,
                  sheet_data_started := true, freeze_top_row := false },
            ascii "<sheetData>\n") := by decide
      rw [heval] at hcfg
      simp only [Option.some.injEq, Prod.mk.injEq] at hcfg
      obtain ⟨h1, -⟩ := hcfg
      rw [← h1]
      exact ⟨rfl, rfl⟩
    | true =>
      have heval : typed_run new_state ((if true then [SheetOp.freezeRow] else []) ++
          [SheetOp.addFilter, SheetOp.initData]) =
          some ({ col_num_to_letter := [], current_row_num := 0, has_auto_filter := true,
                  sheet_data_started := true, freeze_top_row := true },
            sheet_views_bytes ++ ascii "<sheetData>\n") := by decide
      rw [heval] at hcfg
      simp only [Option.some.injEq, Prod.mk.injEq] at hcfg
      obtain ⟨h1, -⟩ := hcfg
      rw [← h1]
      exact ⟨rfl, rfl⟩
  obtain ⟨hc1, hf1⟩ := hstate
  obtain ⟨hc2, hf2, -, -⟩ := typed_run_rows_cache rows s1 0 s2 o2 hc1 hrows
  apply close_good_cache hpos ?_ (by rw [hf2, hf1])
  rw [hc2]
  congr 1
  omega

set_option maxRecDepth 100000 in
theorem claim_c8_witness :
    typed_run new_state ((if false then [SheetOp.freezeRow] else []) ++
        [SheetOp.addFilter, SheetOp.initData]) =
      some ({ col_num_to_letter := [], current_row_num := 0, has_auto_filter := true,
              sheet_data_started := true, freeze_top_row := false }, ascii "<sheetData>\n") ∧
    typed_run { col_num_to_letter := [], current_row_num := 0, has_auto_filter := true,
                sheet_data_started := true, freeze_top_row := false }
        ([([ascii "a", ascii "b"], ([] : List (List Nat)))].map
          fun rt => SheetOp.writeRowOp rt.1 rt.2) =
      some ({ col_num_to_letter := [ascii "A", ascii "B"], current_row_num := 1,
              has_auto_filter := true, sheet_data_started := true, freeze_top_row := false },
        ascii "<row r=\"1\"><c r=\"A1\" t=\"str\"><v>a</v></c><c r=\"B1\" t=\"str\"><v>b</v></c></row>") ∧
    0 < max_row_len [([ascii "a", ascii "b"], ([] : List (List Nat)))] ∧
    close { col_num_to_letter := [ascii "A", ascii "B"], current_row_num := 1,
            has_auto_filter := true, sheet_data_started := true, freeze_top_row := false } =
      some ({ col_num_to_letter := [ascii "A", ascii "B"], current_row_num := 1,
              has_auto_filter := true, sheet_data_started := true, freeze_top_row := false },
        ascii "</sheetData>\n" ++ ascii "<autoFilter ref=\"A1:" ++
          col_letters (max_row_len [([ascii "a", ascii "b"], ([] : List (List Nat)))] - 1) ++
          ascii "1\"/>\n" ++ ascii "</worksheet>") :=
  ⟨by decide, by decide, by decide,
    claim_c8 false [([ascii "a", ascii "b"], ([] : List (List Nat)))]
      { col_num_to_letter := [], current_row_num := 0, has_auto_filter := true,
        sheet_data_started := true, freeze_top_row := false }
      { col_num_to_letter := [ascii "A", ascii "B"], current_row_num := 1,
        has_auto_filter := true, sheet_data_started := true, freeze_top_row := false }
      (ascii "<sheetData>\n")
      (ascii "<row r=\"1\"><c r=\"A1\" t=\"str\"><v>a</v></c><c r=\"B1\" t=\"str\"><v>b</v></c></row>")
      (by decide) (by decide) (by decide)⟩

theorem sheet_num_to_bytes_pos {n : Nat} (h : 1 ≤ n) :
    sheet_num_to_bytes n = num_to_bytes n := by
  unfold sheet_num_to_bytes num_to_bytes
  rw [if_neg (by omega)]

theorem write_cells_with_ext (tagOf1 tagOf2 : Nat → List Nat) (rowArr : List Nat)
    (digits : Nat) :
    ∀ (data cache : List (List Nat)) (col : Nat),
      (∀ j, j < data.length → tagOf1 (col + j) = tagOf2 (col + j)) →
      write_cells_with tagOf1 rowArr digits cache data col =
        write_cells_with tagOf2 rowArr digits cache data col := by
  intro data
  induction data with
  | nil => intro cache col h; rfl
  | cons datum rest ih =>
    intro cache col h
    rw [write_cells_with, write_cells_with]
    have h0 : tagOf1 col = tagOf2 col := by
      have h1 := h 0 (by simp)
      simpa using h1
    have hrec : ∀ cache1 : List (List Nat),
        write_cells_with tagOf1 rowArr digits cache1 rest (col + 1) =
          write_cells_with tagOf2 rowArr digits cache1 rest (col + 1) := by
      intro cache1
      apply ih cache1 (col + 1)
      intro j hj
      have h2 := h (j + 1) (by simpa using Nat.succ_lt_succ hj)
      rw [(by omega : col + 1 + j = col + (j + 1))]
      exact h2
    simp only [h0, hrec]

theorem typed_run_append : ∀ (l1 l2 : List SheetOp) (s : SheetState),
    typed_run s (l1 ++ l2) =
      match typed_run s l1 with
      | none => none
      | some (s1, o1) =>
        match typed_run s1 l2 with
        | none => none
        | some (s2, o2) => some (s2, o1 ++ o2) := by
  intro l1
  induction l1 with
  | nil =>
    intro l2 s
    rw [List.nil_append, typed_run]
    dsimp only
    cases typed_run s l2 with
    | none => rfl
    | some so =>
      obtain ⟨s2, o2⟩ := so
      dsimp only
      rw [List.nil_append]
  | cons op l1 ih =>
    intro l2 s
    rw [List.cons_append, typed_run, typed_run]
    cases typed_step s op with
    | none => rfl
    | some so =>
      obtain ⟨s1, o1⟩ := so
      dsimp only
      rw [ih l2 s1]
      cases typed_run s1 l1 with
      | none => rfl
      | some so2 =>
        obtain ⟨s2, o2⟩ := so2
        dsimp only
        cases typed_run s2 l2 with
        | none => rfl
        | some so3 =>
          obtain ⟨s3, o3⟩ := so3
          dsimp only
          rw [List.append_assoc]

theorem sheet_run_append : ∀ (l1 l2 : List SheetOp) (s : SheetState),
    sheet_run s (l1 ++ l2) =
      match sheet_run s l1 with
      | none => none
      | some (s1, o1) =>
        match sheet_run s1 l2 with
        | none => none
        | some (s2, o2) => some (s2, o1 ++ o2) := by
  intro l1
  induction l1 with
  | nil =>
    intro l2 s
    rw [List.nil_append, sheet_run]
    dsimp only
    cases sheet_run s l2 with
    | none => rfl
    | some so =>
      obtain ⟨s2, o2⟩ := so
      dsimp only
      rw [List.nil_append]
  | cons op l1 ih =>
    intro l2 s
    rw [List.cons_append, sheet_run, sheet_run]
    cases sheet_step s op with
    | none => rfl
    | some so =>
      obtain ⟨s1, o1⟩ := so
      dsimp only
      rw [ih l2 s1]
      cases sheet_run s1 l1 with
      | none => rfl
      | some so2 =>
        obtain ⟨s2, o2⟩ := so2
        dsimp only
        cases sheet_run s2 l2 with
        | none => rfl
        | some so3 =>
          obtain ⟨s3, o3⟩ := so3
          dsimp only
          rw [List.append_assoc]

theorem init_sheet_out_eq {s : SheetState} (h : s.sheet_data_started = false) :
    (init_sheet s).2 = (sheet_init_sheet s).2 := by
  unfold init_sheet sheet_init_sheet write_sheet_views sheet_write_sheet_views
  by_cases hf : s.freeze_top_row <;> simp [h, hf]

theorem init_sheet_fields (s : SheetState) :
    (init_sheet s).1.col_num_to_letter = s.col_num_to_letter ∧
      (init_sheet s).1.current_row_num = s.current_row_num ∧
      (init_sheet s).1.has_auto_filter = s.has_auto_filter := by
  unfold init_sheet write_sheet_views
  by_cases hf : s.freeze_top_row <;> by_cases hd : s.sheet_data_started <;>
    simp [hf, hd]

theorem sheet_init_sheet_fields (s : SheetState) :
    (sheet_init_sheet s).1.col_num_to_letter = s.col_num_to_letter ∧
      (sheet_init_sheet s).1.current_row_num = s.current_row_num ∧
      (sheet_init_sheet s).1.has_auto_filter = s.has_auto_filter := by
  unfold sheet_init_sheet sheet_write_sheet_views
  by_cases hf : s.freeze_top_row <;> by_cases hd : s.sheet_data_started <;>
    simp [hf, hd]

theorem close_eq_sheet {s t : SheetState} (hc : s.col_num_to_letter = t.col_num_to_letter)
    (hf : s.has_auto_filter = t.has_auto_filter) :
    (close s).map Prod.snd = (sheet_close t).map Prod.snd := by
  unfold close sheet_close
  rw [hc, hf]
  by_cases h1 : t.has_auto_filter = true
  · rw [if_pos h1, if_pos h1]
    by_cases h2 : 0 < t.col_num_to_letter.length
    · rw [if_pos h2, if_pos h2]
      cases col_to_letter t.col_num_to_letter (t.col_num_to_letter.length - 1) with
      | none => rfl
      | some lc =>
        obtain ⟨letters, cache1⟩ := lc
        rfl
    · rw [if_neg h2, if_neg h2]
      rfl
  · rw [if_neg h1, if_neg h1]
    rfl

theorem getD_all_str {types : List (List Nat)} {j : Nat} (hj : j < types.length)
    (hall : ∀ t ∈ types, t = ascii "str") : types.getD j (ascii "s") = ascii "str" := by
  rw [List.getD_eq_getElem?_getD, List.getElem?_eq_getElem hj]
  exact hall _ (List.getElem_mem hj)

theorem write_row_eq_sheet {s t : SheetState} (data types : List (List Nat))
    (hcache : s.col_num_to_letter = t.col_num_to_letter)
    (hrow : s.current_row_num = t.current_row_num)
    (hbound : s.current_row_num ≤ 999999999)
    (hcov : ∀ j, j < data.length → types.getD j (ascii "s") = ascii "str") :
    (write_row s data types = none ∧ sheet_write_row t data = none) ∨
    (∃ s1 t1 o, write_row s data types = some (s1, o) ∧
      sheet_write_row t data = some (t1, o) ∧
      s1.col_num_to_letter = t1.col_num_to_letter ∧
      s1.current_row_num = t1.current_row_num ∧
      s1.current_row_num ≤ 999999999 ∧
      s1.has_auto_filter = s.has_auto_filter ∧
      t1.has_auto_filter = t.has_auto_filter) := by
  have hmod : (s.current_row_num + 1) % 4294967296 = s.current_row_num + 1 :=
    Nat.mod_eq_of_lt (by omega)
  simp only [write_row, sheet_write_row]
  rw [← hrow, hmod, sheet_num_to_bytes_pos (by omega), ← hcache]
  cases hnb : num_to_bytes (s.current_row_num + 1) with
  | none =>
    left
    simp only [hnb]
    exact ⟨trivial, trivial⟩
  | some rd =>
    obtain ⟨rowArr, digits⟩ := rd
    have hbound1 : s.current_row_num + 1 ≤ 999999999 := by
      by_contra hx
      rw [num_to_bytes_big (by omega)] at hnb
      cases hnb
    simp only [hnb]
    by_cases h1 : s.current_row_num + 1 = 1
    · rw [if_pos h1, write_cells_sheet_eq_hdr]
      cases hwc : write_cells_hdr rowArr digits s.col_num_to_letter data 0 with
      | none =>
        left
        simp only [hwc]
        exact ⟨trivial, trivial⟩
      | some co =>
        obtain ⟨cells, cache1⟩ := co
        simp only [hwc]
        right
        exact ⟨_, _, _, rfl, rfl, rfl, rfl, hbound1, rfl, rfl⟩
    · rw [if_neg h1, write_cells_typed_eq_with]
      rw [write_cells_with_ext (fun c => types.getD c (ascii "s")) (fun _ => ascii "str")
        rowArr digits data s.col_num_to_letter 0 (fun j hj => by simpa using hcov j hj)]
      rw [← write_cells_hdr_eq_with, write_cells_sheet_eq_hdr]
      cases hwc : write_cells_hdr rowArr digits s.col_num_to_letter data 0 with
      | none =>
        left
        simp only [hwc]
        exact ⟨trivial, trivial⟩
      | some co =>
        obtain ⟨cells, cache1⟩ := co
        simp only [hwc]
        right
        exact ⟨_, _, _, rfl, rfl, rfl, rfl, hbound1, rfl, rfl⟩

theorem run_rows_eq_sheet :
    ∀ (rows : List (List (List Nat) × List (List Nat))) (s t : SheetState),
      s.col_num_to_letter = t.col_num_to_letter →
      s.current_row_num = t.current_row_num →
      s.current_row_num ≤ 999999999 →
      (∀ rt, rt ∈ rows → ∀ j, j < rt.1.length → rt.2.getD j (ascii "s") = ascii "str") →
      (typed_run s (rows.map fun rt => SheetOp.writeRowOp rt.1 rt.2) = none ∧
        sheet_run t (rows.map fun rt => SheetOp.writeRowOp rt.1 rt.2) = none) ∨
      (∃ s2 t2 o,
        typed_run s (rows.map fun rt => SheetOp.writeRowOp rt.1 rt.2) = some (s2, o) ∧
        sheet_run t (rows.map fun rt => SheetOp.writeRowOp rt.1 rt.2) = some (t2, o) ∧
        s2.col_num_to_letter = t2.col_num_to_letter ∧
        s2.has_auto_filter = s.has_auto_filter ∧
        t2.has_auto_filter = t.has_auto_filter) := by
  intro rows
  induction rows with
  | nil =>
    intro s t h1 h2 h3 h4
    right
    exact ⟨s, t, [], rfl, rfl, h1, rfl, rfl⟩
  | cons rt rest ih =>
    intro s t h1 h2 h3 h4
    rw [List.map_cons, typed_run, sheet_run]
    simp only [typed_step, sheet_step]
    rcases write_row_eq_sheet rt.1 rt.2 h1 h2 h3 (fun j hj => h4 rt (by simp) j hj) with
      ⟨hn1, hn2⟩ | ⟨s1, t1, o, hw1, hw2, hc, hr, hb, hf1, hf2⟩
    · left
      rw [hn1, hn2]
      exact ⟨rfl, rfl⟩
    · rw [hw1, hw2]
      dsimp only
      rcases ih s1 t1 hc hr hb (fun rt2 hm j hj => h4 rt2 (by simp [hm]) j hj) with
        ⟨hn1, hn2⟩ | ⟨s2, t2, o2, hr1, hr2, hc2, hf3, hf4⟩
      · left
        rw [hn1, hn2]
        exact ⟨rfl, rfl⟩
      · right
        rw [hr1, hr2]
        exact ⟨s2, t2, o ++ o2, rfl, rfl, hc2, by rw [hf3, hf1], by rw [hf4, hf2]⟩

theorem typed_run_close (s : SheetState) :
    typed_run s [SheetOp.closeOp] =
      match close s with
      | none => none
      | some so => some (so.1, so.2) := by
  rw [typed_run]
  simp only [typed_step]
  cases close s with
  | none => rfl
  | some so =>
    obtain ⟨s3, o⟩ := so
    dsimp only
    rw [typed_run]
    dsimp only
    rw [List.append_nil]

theorem sheet_run_close (s : SheetState) :
    sheet_run s [SheetOp.closeOp] =
      match sheet_close s with
      | none => none
      | some so => some (so.1, so.2) := by
  rw [sheet_run]
  simp only [sheet_step]
  cases sheet_close s with
  | none => rfl
  | some so =>
    obtain ⟨s3, o⟩ := so
    dsimp only
    rw [sheet_run]
    dsimp only
    rw [List.append_nil]

theorem sheet_run_rows_types (rows : List (List (List Nat) × List (List Nat))) :
    ∀ t : SheetState,
      sheet_run t ((rows.map Prod.fst).map fun r => SheetOp.writeRowOp r []) =
        sheet_run t (rows.map fun rt => SheetOp.writeRowOp rt.1 rt.2) := by
  induction rows with
  | nil => intro t; rfl
  | cons rt rest ih =>
    intro t
    rw [List.map_cons, List.map_cons, List.map_cons, sheet_run, sheet_run]
    simp only [sheet_step, ih]

/-- C10: for every freeze/filter configuration and every row sequence,
the typed writer — given, for every row, a type list of `"str"` entries
covering every column of that row — produces byte-identical worksheet
output to the untyped writer (and panics at exactly the same point when
either panics). -/
theorem claim_c10 (freeze filter : Bool) (rows : List (List (List Nat) × List (List Nat)))
    (hcov : ∀ rt ∈ rows, rt.1.length ≤ rt.2.length ∧ ∀ tg ∈ rt.2, tg = ascii "str") :
    typed_pipeline freeze filter rows = sheet_pipeline freeze filter (rows.map Prod.fst) := by
  unfold typed_pipeline sheet_pipeline
  rw [typed_run, sheet_run]
  simp only [typed_step, sheet_step]
  rw [typed_run_append, sheet_run_append, sheet_run_rows_types]
  obtain ⟨hci, hri, hfi⟩ := init_sheet_fields (config_state freeze filter)
  obtain ⟨hci2, hri2, hfi2⟩ := sheet_init_sheet_fields (config_state freeze filter)
  have hcov' : ∀ rt, rt ∈ rows → ∀ j, j < rt.1.length →
      rt.2.getD j (ascii "s") = ascii "str" := by
    intro rt hm j hj
    exact getD_all_str (lt_of_lt_of_le hj (hcov rt hm).1) (hcov rt hm).2
  rcases run_rows_eq_sheet rows (init_sheet (config_state freeze filter)).1
      (sheet_init_sheet (config_state freeze filter)).1
      (by rw [hci, hci2]) (by rw [hri, hri2])
      (by rw [hri]; exact Nat.zero_le _) hcov' with
    ⟨hn1, hn2⟩ | ⟨s2, t2, o, h1, h2, hc, hf1, hf2⟩
  · rw [hn1, hn2]
  · rw [h1, h2]
    dsimp only
    rw [typed_run_close, sheet_run_close]
    have hcl := close_eq_sheet hc (by rw [hf1, hf2, hfi, hfi2])
    have hout := init_sheet_out_eq (s := config_state freeze filter) rfl
    cases hx : close s2 with
    | none =>
      rw [hx] at hcl
      cases hy : sheet_close t2 with
      | none => rfl
      | some so2 =>
        rw [hy] at hcl
        simp at hcl
    | some so =>
      rw [hx] at hcl
      cases hy : sheet_close t2 with
      | none =>
        rw [hy] at hcl
        simp at hcl
      | some so2 =>
        rw [hy] at hcl
        simp only [Option.map_some', Option.some.injEq] at hcl
        dsimp only
        rw [hout, hcl]

theorem typed_config_run (freeze filter : Bool) :
    typed_run new_state ((if freeze then [SheetOp.freezeRow] else []) ++
      (if filter then [SheetOp.addFilter] else [])) =
      some (config_state freeze filter, []) := by
  cases freeze <;> cases filter <;> decide

theorem sheet_config_run (freeze filter : Bool) :
    sheet_run new_state ((if freeze then [SheetOp.freezeRow] else []) ++
      (if filter then [SheetOp.addFilter] else [])) =
      some (config_state freeze filter, []) := by
  cases freeze <;> cases filter <;> decide

theorem claim_c10_witness :
    (∀ rt ∈ [([ascii "a", ascii "b"], [ascii "str", ascii "str"]),
        ([ascii "1"], [ascii "str"])],
      rt.1.length ≤ rt.2.length ∧ ∀ tg ∈ rt.2, tg = ascii "str") ∧
    typed_pipeline true true [([ascii "a", ascii "b"], [ascii "str", ascii "str"]),
        ([ascii "1"], [ascii "str"])] =
      sheet_pipeline true true ([([ascii "a", ascii "b"], [ascii "str", ascii "str"]),
        ([ascii "1"], [ascii "str"])].map Prod.fst) :=
  ⟨by decide, claim_c10 true true
    [([ascii "a", ascii "b"], [ascii "str", ascii "str"]), ([ascii "1"], [ascii "str"])]
    (by decide)⟩
